import Mathlib

/-!
Shallow embedding of the `calculator-core` crate
(`src/crates/calculator-core/src/{token,parse,expr,eval}.rs`):
the tokenizer, the precedence-climbing expression parser and the
tree-walking evaluator over arbitrary-precision integers, together with
theorems settling the specification claims.

Modelling conventions:
* Rust `BigInt` is `Int` (both are arbitrary precision); `BigInt`
  division and remainder truncate toward zero, which is `Int.tdiv` /
  `Int.tmod`.
* `&str` input is `List Char`; token payloads become `String` via
  `String.mk`, mirroring `lit.to_string()`.
* The `unicode_ident` crate's `is_xid_start` / `is_xid_continue`
  (a dependency, not part of this repository) are abstract boolean
  predicates `xs`, `xc` that parameterize the scanner; `asciiXidStart` /
  `asciiXidCont` below instantiate them with their ASCII fragment, which
  agrees with the crate on all ASCII characters.
* Rust `HashMap` environments become functional maps
  `String → Option _`; `&mut Environment` becomes explicit state
  passing, so `eval` returns a result paired with the updated
  environment (on `Err` the environment at the failure point is
  returned, as the Rust `?` operator leaves the borrowed map in place).
* The mutually recursive parser is defined with a fuel parameter; `none`
  means the fuel ran out (which never happens for the generous fuel the
  entry point passes, since every cycle of recursive calls consumes a
  token).
* The scanner exists in two renditions: `tokens`, the character-level
  idealization used by the parsing pipeline, and `tokensB`, which
  reproduces `token.rs`'s byte-index arithmetic literally and returns
  `none` where the Rust code panics (`str::split_at` off a character
  boundary).  The two agree whenever every identifier continuation
  character is ASCII; `scanner_byte_index_bug` exhibits their
  divergence on multi-byte identifiers.
-/

namespace Calculator

/-- `ParseError` from `parse.rs` (the `ParseBigIntError` payload is
dropped: the embedding only tracks the kind). -/
inductive ParseError where
  | ExpectedUnary
  | ExpectedBinary
  | ExpectedNum
  | ExpectedRParen
  | UnexpectedEndOfInput
  | UnexpectedToken
  | ParseBigIntError
  deriving DecidableEq, Repr

/-- `EvalError` from `eval.rs` (the source spells the first kind
`DevideByZero`; the spec calls it `DivideByZero`). -/
inductive EvalError where
  | DevideByZero
  | NegativePower
  | Unimplemented
  | InvalidArgumentLength
  | UndefinedVariable
  | UndefinedFunction
  | UnableToAssign
  deriving DecidableEq, Repr

/-- `Token` from `token.rs`; literal payloads are the scanned text. -/
inductive Token where
  | NumLit (s : String)
  | VarLit (s : String)
  | Plus
  | Minus
  | Ast
  | AstAst
  | Slash
  | Percent
  | LParen
  | RParen
  | Comma
  | Equal
  deriving DecidableEq, Repr

/-- Rust `char::is_ascii_whitespace`: space, tab, newline, form feed,
carriage return. -/
def isAsciiWhitespace (c : Char) : Bool :=
  c = ' ' || c = '\t' || c = '\n' || c = '\x0c' || c = '\r'

/-- The ASCII fragment of `unicode_ident::is_xid_start`: ASCII letters
(XID_Start contains no ASCII digit, underscore, symbol or whitespace). -/
def asciiXidStart (c : Char) : Bool := c.isAlpha

/-- The ASCII fragment of `unicode_ident::is_xid_continue`: ASCII
letters, digits and underscore. -/
def asciiXidCont (c : Char) : Bool := c.isAlphanum || c = '_'

/-- `unicode_ident::is_xid_start` restricted to the characters used by
`scanner_byte_index_bug`: ASCII letters plus `é` (U+00E9) and `ß`
(U+00DF), both lowercase letters and hence XID_Start in Unicode. -/
def xidStartDemo (c : Char) : Bool := c.isAlpha || c = 'é' || c = 'ß'

/-- `unicode_ident::is_xid_continue` restricted to the characters used
by `scanner_byte_index_bug`: the ASCII fragment plus `é` and `ß`, both
XID_Continue in Unicode (`+` is not). -/
def xidContDemo (c : Char) : Bool := c.isAlphanum || c = '_' || c = 'é' || c = 'ß'

theorem length_dropWhile_le (p : Char → Bool) (l : List Char) :
    (l.dropWhile p).length ≤ l.length := by
  induction l with
  | nil => simp [List.dropWhile]
  | cons c cs ih =>
    by_cases h : p c
    · simp [List.dropWhile, h]; omega
    · simp [List.dropWhile, h]

/-- `tokens` from `token.rs`, parameterized by the `unicode_ident`
predicates `xs` (`is_xid_start`) and `xc` (`is_xid_continue`).
A single left-to-right pass: digit runs become `NumLit`, identifier
runs become `VarLit`, fixed symbols map to their kinds (`**` with one
character of lookahead), ASCII whitespace is skipped, anything else
fails with `UnexpectedToken`.

This is the character-level idealization: identifier runs end at the
character index of the first non-continuation character.  It agrees
with `token.rs` exactly when every identifier continuation character is
ASCII (true of every input fed to it in this file); `token.rs` itself
mixes that character index with byte offsets, which `tokensB` below
models faithfully. -/
def tokens (xs xc : Char → Bool) : List Char → Except ParseError (List Token)
  | [] => .ok []
  | c :: s =>
    if c.isDigit then
      (tokens xs xc (s.dropWhile Char.isDigit)).map
        (Token.NumLit (String.mk (c :: s.takeWhile Char.isDigit)) :: ·)
    else if c = '+' then (tokens xs xc s).map (Token.Plus :: ·)
    else if c = '-' then (tokens xs xc s).map (Token.Minus :: ·)
    else if c = '*' then
      match s with
      | '*' :: s2 => (tokens xs xc s2).map (Token.AstAst :: ·)
      | [] => .ok [Token.Ast]
      | c2 :: s2 => (tokens xs xc (c2 :: s2)).map (Token.Ast :: ·)
    else if c = '/' then (tokens xs xc s).map (Token.Slash :: ·)
    else if c = '%' then (tokens xs xc s).map (Token.Percent :: ·)
    else if c = '(' then (tokens xs xc s).map (Token.LParen :: ·)
    else if c = ')' then (tokens xs xc s).map (Token.RParen :: ·)
    else if c = ',' then (tokens xs xc s).map (Token.Comma :: ·)
    else if c = '=' then (tokens xs xc s).map (Token.Equal :: ·)
    else if isAsciiWhitespace c then tokens xs xc s
    else if xs c then
      (tokens xs xc (s.dropWhile xc)).map
        (Token.VarLit (String.mk (c :: s.takeWhile xc)) :: ·)
    else .error .UnexpectedToken
  termination_by s => s.length
  decreasing_by
    all_goals simp_wf
    all_goals try omega
    · have := length_dropWhile_le Char.isDigit s; omega
    · have := length_dropWhile_le xc s; omega

/-- Rust `str::len` of a character list: its total UTF-8 byte length. -/
def byteLen (l : List Char) : Nat := (l.map Char.utf8Size).sum

/-- Rust `str::split_at` on a character list, with `i` a BYTE offset;
`none` models the panic raised when `i` is not a character boundary or
is out of range. -/
def splitAtByte : List Char → Nat → Option (List Char × List Char)
  | l, 0 => some ([], l)
  | [], _ + 1 => none
  | c :: t, i + 1 =>
    if c.utf8Size ≤ i + 1 then
      (splitAtByte t (i + 1 - c.utf8Size)).map (fun p => (c :: p.1, p.2))
    else none

theorem splitAtByte_rest_le : ∀ (l : List Char) (i : Nat) (a b : List Char),
    splitAtByte l i = some (a, b) → b.length ≤ l.length := by
  intro l
  induction l with
  | nil =>
    intro i a b h
    cases i with
    | zero => simp [splitAtByte] at h; simp [h.2]
    | succ j => simp [splitAtByte] at h
  | cons c t ih =>
    intro i a b h
    cases i with
    | zero =>
      simp [splitAtByte] at h
      simp [h.2]
    | succ j =>
      rw [splitAtByte] at h
      by_cases hs : c.utf8Size ≤ j + 1
      · rw [if_pos hs] at h
        rcases hr : splitAtByte t (j + 1 - c.utf8Size) with _ | ⟨a2, b2⟩ <;>
          rw [hr] at h
        · simp [Option.map] at h
        · simp [Option.map] at h
          have := ih (j + 1 - c.utf8Size) a2 b2 hr
          simp [← h.2]
          omega
      · rw [if_neg hs] at h
        simp at h

theorem splitAtByte_cons_rest_lt (c : Char) (t : List Char) (i : Nat)
    (a b : List Char) (h : splitAtByte (c :: t) i = some (a, b))
    (hi : i ≠ 0) : b.length ≤ t.length := by
  cases i with
  | zero => exact absurd rfl hi
  | succ j =>
    rw [splitAtByte] at h
    by_cases hs : c.utf8Size ≤ j + 1
    · rw [if_pos hs] at h
      rcases hr : splitAtByte t (j + 1 - c.utf8Size) with _ | ⟨a2, b2⟩ <;>
        rw [hr] at h
      · simp [Option.map] at h
      · simp [Option.map] at h
        have h3 := splitAtByte_rest_le t (j + 1 - c.utf8Size) a2 b2 hr
        obtain ⟨h1, h2⟩ := h
        subst h2
        omega
    · rw [if_neg hs] at h
      simp at h

/-- The byte-faithful model of `tokens` from `token.rs`.  The
identifier arm reproduces the source's index arithmetic literally: the
end of the identifier is computed as `slen + pos` where `slen` is the
BYTE length of the start character but `pos` is the result of
`Iterator::position` over `chars()` — a CHARACTER count — unless the
run reaches the end of input, in which case `unwrap_or(s1.len())`
yields a byte count.  The sum is then passed to `str::split_at`, which
panics (`none` here) when it does not land on a character boundary.
When every identifier continuation character is ASCII the two counts
coincide and this model agrees with the character-level `tokens` above;
on multi-byte continuation characters they diverge (see
`scanner_byte_index_bug`).  The other arms handle single ASCII
characters or ASCII digit runs, where character counts equal byte
counts. -/
def tokensB (xs xc : Char → Bool) :
    List Char → Option (Except ParseError (List Token))
  | [] => some (.ok [])
  | c :: s =>
    if c.isDigit then
      (tokensB xs xc (s.dropWhile Char.isDigit)).map
        (Except.map (Token.NumLit (String.mk (c :: s.takeWhile Char.isDigit)) :: ·))
    else if c = '+' then (tokensB xs xc s).map (Except.map (Token.Plus :: ·))
    else if c = '-' then (tokensB xs xc s).map (Except.map (Token.Minus :: ·))
    else if c = '*' then
      match s with
      | '*' :: s2 => (tokensB xs xc s2).map (Except.map (Token.AstAst :: ·))
      | [] => some (.ok [Token.Ast])
      | c2 :: s2 => (tokensB xs xc (c2 :: s2)).map (Except.map (Token.Ast :: ·))
    else if c = '/' then (tokensB xs xc s).map (Except.map (Token.Slash :: ·))
    else if c = '%' then (tokensB xs xc s).map (Except.map (Token.Percent :: ·))
    else if c = '(' then (tokensB xs xc s).map (Except.map (Token.LParen :: ·))
    else if c = ')' then (tokensB xs xc s).map (Except.map (Token.RParen :: ·))
    else if c = ',' then (tokensB xs xc s).map (Except.map (Token.Comma :: ·))
    else if c = '=' then (tokensB xs xc s).map (Except.map (Token.Equal :: ·))
    else if isAsciiWhitespace c then tokensB xs xc s
    else if xs c then
      match h : splitAtByte (c :: s)
          (if (s.takeWhile xc).length = s.length then c.utf8Size + byteLen s
           else c.utf8Size + (s.takeWhile xc).length) with
      | some (lit, rest) =>
        (tokensB xs xc rest).map (Except.map (Token.VarLit (String.mk lit) :: ·))
      | none => none
    else some (.error .UnexpectedToken)
  termination_by s => s.length
  decreasing_by
    all_goals simp_wf
    all_goals try omega
    · have := length_dropWhile_le Char.isDigit s; omega
    · have h2 := splitAtByte_cons_rest_lt c s _ lit rest h
        (by have := Char.utf8Size_pos c; split <;> omega)
      omega

/-- `BinaryOp` from `expr.rs`. -/
inductive BinaryOp where
  | Add
  | Sub
  | Mul
  | Div
  | Rem
  | Pow
  | Assign
  deriving DecidableEq, Repr

/-- `UnaryOp` from `expr.rs`. -/
inductive UnaryOp where
  | Plus
  | Minus
  deriving DecidableEq, Repr

/-- `Expr` from `expr.rs`; `Int` holds the arbitrary-precision value. -/
inductive Expr where
  | Int (n : Int)
  | Binary (lhs : Expr) (op : BinaryOp) (rhs : Expr)
  | Unary (op : UnaryOp) (e : Expr)
  | Paren (e : Expr)
  | Variable (ident : String)
  | Call (ident : String) (args : List Expr)

/-- `Precedence` from `expr.rs`; derived `Ord` compares by declaration
order, embedded through `toNat`. -/
inductive Precedence where
  | Any
  | Assign
  | Additive
  | Multiplicative
  | Exponent
  deriving DecidableEq, Repr

/-- Declaration order of `Precedence`, the key of its derived `Ord`. -/
def Precedence.toNat : Precedence → Nat
  | .Any => 0
  | .Assign => 1
  | .Additive => 2
  | .Multiplicative => 3
  | .Exponent => 4

/-- The derived `<` on `Precedence` (`PartialOrd` by declaration
order). -/
def Precedence.blt (a b : Precedence) : Bool := a.toNat < b.toNat

namespace BinaryOp

/-- The token-to-operator table inside `BinaryOp::peek`. -/
def ofToken : Token → Option BinaryOp
  | .Plus => some .Add
  | .Minus => some .Sub
  | .Ast => some .Mul
  | .Slash => some .Div
  | .Percent => some .Rem
  | .AstAst => some .Pow
  | .Equal => some .Assign
  | _ => none

/-- `BinaryOp::peek` from `expr.rs`: classify the lookahead token
without consuming it. -/
def peek (ts : List Token) : Except ParseError BinaryOp :=
  match ts with
  | [] => .error .UnexpectedEndOfInput
  | t :: _ =>
    match ofToken t with
    | some op => .ok op
    | none => .error .ExpectedBinary

/-- `BinaryOp::precedence` from `expr.rs`. -/
def precedence : BinaryOp → Precedence
  | .Add | .Sub => .Additive
  | .Mul | .Div | .Rem => .Multiplicative
  | .Pow => .Exponent
  | .Assign => .Assign

/-- `BinaryOp::peek_precedence` from `expr.rs`: the `ExpectedBinary`
result of `peek` is swallowed into `none`. -/
def peekPrecedence (ts : List Token) : Option Precedence :=
  match peek ts with
  | .ok op => some op.precedence
  | .error _ => none

/-- `BinaryOp::is_right` from `expr.rs`. -/
def isRight : BinaryOp → Bool
  | .Pow | .Assign => true
  | _ => false

/-- `<BinaryOp as Parse>::parse` from `expr.rs`: peek, then consume. -/
def parse (ts : List Token) : Except ParseError BinaryOp × List Token :=
  match peek ts with
  | .error e => (.error e, ts)
  | .ok op =>
    match ts with
    | [] => (.error .UnexpectedEndOfInput, ts)
    | _ :: rest => (.ok op, rest)

end BinaryOp

/-- Models `str::parse::<BigInt>` (from the `num` crate, a dependency)
on the strings the scanner can store in a `NumLit` token: a non-empty
all-digit string parses to its value, anything else is the
integer-literal conversion failure. -/
def parseBigIntStr (s : String) : Except ParseError Int :=
  if s.toList ≠ [] ∧ s.toList.all Char.isDigit then
    .ok (s.toList.foldl (fun a c => 10 * a + (c.toNat - '0'.toNat : Nat)) 0)
  else .error .ParseBigIntError

mutual

/-- `parse_expr` from `expr.rs`: a unary/primary term, then the
precedence climb starting at `Precedence::Any`.  The `Nat` argument is
fuel for the mutual recursion; `none` = fuel exhausted. -/
def parseExpr : Nat → List Token → Option (Except ParseError Expr × List Token)
  | 0, _ => none
  | fuel + 1, ts =>
    match parseUnary fuel ts with
    | none => none
    | some (.error e, ts') => some (.error e, ts')
    | some (.ok lhs, ts') => parseRexpr fuel lhs .Any ts'

/-- The outer `while` loop of `parse_rexpr` from `expr.rs`: as long as
the lookahead is a binary operator of precedence ≥ `base`, consume it,
parse a right-hand term, let `absorbRhs` extend it, and fold the result
into `lhs`. -/
def parseRexpr : Nat → Expr → Precedence → List Token →
    Option (Except ParseError Expr × List Token)
  | 0, _, _, _ => none
  | fuel + 1, lhs, base, ts =>
    match BinaryOp.peekPrecedence ts with
    | none => some (.ok lhs, ts)
    | some prec =>
      if prec.blt base then some (.ok lhs, ts)
      else
        match BinaryOp.parse ts with
        | (.error e, ts₁) => some (.error e, ts₁)
        | (.ok op, ts₁) =>
          match parseUnary fuel ts₁ with
          | none => none
          | some (.error e, ts₂) => some (.error e, ts₂)
          | some (.ok rhs0, ts₂) =>
            match absorbRhs fuel op rhs0 ts₂ with
            | none => none
            | some (.error e, ts₃) => some (.error e, ts₃)
            | some (.ok rhs, ts₃) =>
              parseRexpr fuel (.Binary lhs op rhs) base ts₃

/-- The inner `while` loop of `parse_rexpr` from `expr.rs`: keep
absorbing into the right-hand side while the next operator binds
strictly tighter, or equally tight with a right-associative current
operator. -/
def absorbRhs : Nat → BinaryOp → Expr → List Token →
    Option (Except ParseError Expr × List Token)
  | 0, _, _, _ => none
  | fuel + 1, op, rhs, ts =>
    match BinaryOp.peekPrecedence ts with
    | none => some (.ok rhs, ts)
    | some nxt =>
      if op.precedence.blt nxt || (nxt = op.precedence && op.isRight) then
        match parseRexpr fuel rhs nxt ts with
        | none => none
        | some (.error e, ts') => some (.error e, ts')
        | some (.ok rhs', ts') => absorbRhs fuel op rhs' ts'
      else some (.ok rhs, ts)

/-- `parse_unary` from `expr.rs`: leading `+`/`-` chain, integer
literal, parenthesized expression, variable or call, otherwise
`ExpectedUnary`. -/
def parseUnary : Nat → List Token → Option (Except ParseError Expr × List Token)
  | 0, _ => none
  | fuel + 1, ts =>
    match ts with
    | [] => some (.error .UnexpectedEndOfInput, ts)
    | t :: rest =>
      match t with
      | .Plus =>
        match parseUnary fuel rest with
        | none => none
        | some (.error e, ts') => some (.error e, ts')
        | some (.ok e, ts') => some (.ok (.Unary .Plus e), ts')
      | .Minus =>
        match parseUnary fuel rest with
        | none => none
        | some (.error e, ts') => some (.error e, ts')
        | some (.ok e, ts') => some (.ok (.Unary .Minus e), ts')
      | .NumLit s =>
        match parseBigIntStr s with
        | .ok n => some (.ok (.Int n), rest)
        | .error e => some (.error e, rest)
      | .LParen =>
        match parseExpr fuel rest with
        | none => none
        | some (.error e, ts') => some (.error e, ts')
        | some (.ok e, ts') =>
          match ts' with
          | .RParen :: ts'' => some (.ok (.Paren e), ts'')
          | _ :: ts'' => some (.error .ExpectedRParen, ts'')
          | [] => some (.error .UnexpectedEndOfInput, ts')
      | .VarLit s =>
        match rest with
        | .LParen :: ts₁ =>
          match argsLoop fuel [] ts₁ with
          | none => none
          | some (.error e, ts') => some (.error e, ts')
          | some (.ok args, ts') => some (.ok (.Call s args), ts')
        | _ => some (.ok (.Variable s), rest)
      | _ => some (.error .ExpectedUnary, ts)

/-- The argument-list `loop` inside `parse_unary` from `expr.rs`:
parse an expression; on success consume `,` (continue) or `)` (done);
on failure the next token must be `)` (note the failed `parse_expr`
leaves the cursor wherever it stopped). -/
def argsLoop : Nat → List Expr → List Token →
    Option (Except ParseError (List Expr) × List Token)
  | 0, _, _ => none
  | fuel + 1, acc, ts =>
    match parseExpr fuel ts with
    | none => none
    | some (.ok e, ts') =>
      match ts' with
      | .Comma :: ts'' => argsLoop fuel (acc ++ [e]) ts''
      | .RParen :: ts'' => some (.ok (acc ++ [e]), ts'')
      | _ :: ts'' => some (.error .ExpectedRParen, ts'')
      | [] => some (.error .UnexpectedEndOfInput, ts')
    | some (.error _, ts') =>
      match ts' with
      | .RParen :: ts'' => some (.ok acc, ts'')
      | _ :: ts'' => some (.error .ExpectedRParen, ts'')
      | [] => some (.error .UnexpectedEndOfInput, ts')

end

/-- `TokenStream::eof` from `token.rs`. -/
def eof (ts : List Token) : Except ParseError Unit :=
  match ts with
  | [] => .ok ()
  | _ :: _ => .error .UnexpectedToken

/-- `parse_from_str::<Expr>` from `parse.rs`: tokenize, parse one
expression, then require end of input.  Parameterized by the
`unicode_ident` predicates and the parser fuel (the entry point below
fixes a fuel that the token count can never exhaust). -/
def parseFromStrFuel (xs xc : Char → Bool) (fuel : Nat) (s : String) :
    Option (Except ParseError Expr) :=
  match tokens xs xc s.toList with
  | .error e => some (.error e)
  | .ok toks =>
    match parseExpr fuel toks with
    | none => none
    | some (.error e, _) => some (.error e)
    | some (.ok e, rest) =>
      match eof rest with
      | .ok _ => some (.ok e)
      | .error e' => some (.error e')

/-- `parse_from_str::<Expr>` with the ASCII instantiation of the
`unicode_ident` predicates and a fuel large enough for any token
list of the input's length. -/
def parse_from_str (s : String) : Option (Except ParseError Expr) :=
  parseFromStrFuel asciiXidStart asciiXidCont (4 * s.length + 8) s

/-- `Function` from `eval.rs` (`pub type Function = (); // TODO`). -/
def Function := Unit

/-- `Environment` from `eval.rs`: the `HashMap`s become functional
maps (`vars` embeds the `variables` field, whose Rust name is a
reserved word here). -/
structure Environment where
  vars : String → Option Int
  functions : String → Option Function

namespace Environment

/-- `Environment::default()`: both tables empty. -/
def default : Environment := ⟨fun _ => none, fun _ => none⟩

/-- `Environment::get_variable` from `eval.rs`. -/
def get_variable (env : Environment) (ident : String) : Except EvalError Int :=
  match env.vars ident with
  | some n => .ok n
  | none => .error .UndefinedVariable

/-- `Environment::set_variable` from `eval.rs`: insert or overwrite. -/
def set_variable (env : Environment) (ident : String) (n : Int) : Environment :=
  { env with vars := fun x => if x = ident then some n else env.vars x }

/-- `Environment::call` from `eval.rs`: look the name up in the
function table, `UndefinedFunction` if absent.  (The evaluator never
invokes this method.) -/
def call (env : Environment) (ident : String) (_args : List Expr) :
    Except EvalError Function :=
  match env.functions ident with
  | some f => .ok f
  | none => .error .UndefinedFunction

end Environment

/-- The shared `Pow` arithmetic of `Expr::eval` from `expr.rs`:
`r.to_biguint()` is `some` exactly when `0 ≤ r`, and `l.pow(r)` is then
`l ^ r.toNat`; a negative exponent is `NegativePower`. -/
def powResult (l r : Int) : Except EvalError Int :=
  if r < 0 then .error .NegativePower else .ok (l ^ r.toNat)

/-- `<Expr as Eval>::eval` from `expr.rs`.  `&mut Environment` becomes
explicit state passing: the result is paired with the environment as it
stands when `eval` returns, also on `Err` (Rust's `?` leaves the
mutations made so far in place). -/
def Expr.eval : Expr → Environment → Except EvalError ℤ × Environment
  | .Int n, env => (.ok n, env)
  | .Binary lhs op rhs, env =>
    match op with
    | .Assign =>
      match rhs.eval env with
      | (.error e, env₁) => (.error e, env₁)
      | (.ok r, env₁) =>
        match lhs with
        | .Variable ident => (.ok r, env₁.set_variable ident r)
        | _ => (.error .UnableToAssign, env₁)
    | _ =>
      match lhs.eval env with
      | (.error e, env₁) => (.error e, env₁)
      | (.ok l, env₁) =>
        match rhs.eval env₁ with
        | (.error e, env₂) => (.error e, env₂)
        | (.ok r, env₂) =>
          (match op with
           | .Add => .ok (l + r)
           | .Sub => .ok (l - r)
           | .Mul => .ok (l * r)
           | .Div => if r = 0 then .error .DevideByZero else .ok (l.tdiv r)
           | .Rem => if r = 0 then .error .DevideByZero else .ok (l.tmod r)
           | .Pow => powResult l r
           | .Assign => .error .Unimplemented, env₂)
  | .Unary op e, env =>
    match op with
    | .Plus => e.eval env
    | .Minus =>
      match e.eval env with
      | (.error er, env₁) => (.error er, env₁)
      | (.ok n, env₁) => (.ok (-n), env₁)
  | .Paren e, env => e.eval env
  | .Variable ident, env =>
    match env.get_variable ident with
    | .ok n => (.ok n, env)
    | .error e => (.error e, env)
  | .Call s args, env =>
    if s = "pow" then
      match args with
      | [a1, a2] =>
        match a1.eval env with
        | (.error e, env₁) => (.error e, env₁)
        | (.ok l, env₁) =>
          match a2.eval env₁ with
          | (.error e, env₂) => (.error e, env₂)
          | (.ok r, env₂) => (powResult l r, env₂)
      | _ => (.error .InvalidArgumentLength, env)
    else (.error .Unimplemented, env)
  termination_by e => sizeOf e
  decreasing_by all_goals simp_wf <;> omega

/-- An expression with no `Assign` operator anywhere inside it;
evaluating such an expression can never call `set_variable`. -/
def assignFree : Expr → Bool
  | .Int _ => true
  | .Binary lhs op rhs => op ≠ .Assign && assignFree lhs && assignFree rhs
  | .Unary _ e => assignFree e
  | .Paren e => assignFree e
  | .Variable _ => true
  | .Call _ args => args.attach.all fun x => assignFree x.1
  termination_by e => sizeOf e
  decreasing_by
    all_goals simp_wf
    all_goals try omega
    have := List.sizeOf_lt_of_mem x.2
    omega

/-! ## Helper lemmas -/

/-- Evaluating an expression with no `Assign` node never changes the
environment, whether evaluation succeeds or fails: `set_variable` is
only reachable from an `Assign` node. -/
theorem assignFree_env (e : Expr) (env : Environment) :
    assignFree e = true → (e.eval env).2 = env := by
  induction e, env using Expr.eval.induct with
  | case2 lhs rhs env e env₁ hr ih =>
    intro h; simp [assignFree] at h
  | case3 rhs env r env₁ hr ident ih =>
    intro h; simp [assignFree] at h
  | case4 lhs rhs env r env₁ hr hnv ih =>
    intro h; simp [assignFree] at h
  | case5 lhs op rhs env e env₁ hl hop ih =>
    intro h; simp [assignFree] at h
    obtain ⟨⟨hne, h1⟩, h2⟩ := h
    cases op <;> simp_all [Expr.eval]
  | case6 lhs op rhs env r env₁ hl e env₂ hr hop ih1 ih2 =>
    intro h; simp [assignFree] at h
    obtain ⟨⟨hne, h1⟩, h2⟩ := h
    cases op <;> simp_all [Expr.eval]
  | case7 lhs op rhs env r env₁ hl r2 env₂ hr hop ih1 ih2 =>
    intro h; simp [assignFree] at h
    obtain ⟨⟨hne, h1⟩, h2⟩ := h
    cases op <;> simp_all [Expr.eval]
  | case18 s args env hs =>
    intro h
    rw [Expr.eval.eq_def]
    simp [hs]
  | _ =>
    intro h; simp_all [Expr.eval, assignFree]

/-- The magnitude of a truncating remainder is smaller than that of a
nonzero divisor. -/
theorem natAbs_tmod_lt (l r : Int) (h : r ≠ 0) :
    (Int.tmod l r).natAbs < r.natAbs := by
  cases l with
  | ofNat m =>
    cases r with
    | ofNat n =>
      have hn : 0 < n := Nat.pos_of_ne_zero (fun h0 => h (by rw [h0]; rfl))
      exact Nat.mod_lt _ hn
    | negSucc n =>
      show m % (n + 1) < n + 1
      exact Nat.mod_lt _ (Nat.succ_pos n)
  | negSucc m =>
    cases r with
    | ofNat n =>
      have hn : 0 < n := Nat.pos_of_ne_zero (fun h0 => h (by rw [h0]; rfl))
      show (-(Int.ofNat ((m + 1) % n))).natAbs < (Int.ofNat n).natAbs
      rw [Int.natAbs_neg]
      exact Nat.mod_lt _ hn
    | negSucc n =>
      show (-(Int.ofNat ((m + 1) % (n + 1)))).natAbs < (Int.negSucc n).natAbs
      rw [Int.natAbs_neg]
      exact Nat.mod_lt _ (Nat.succ_pos n)

/-- A truncating remainder of a nonpositive dividend is nonpositive. -/
theorem tmod_nonpos (l r : Int) (h : l ≤ 0) : Int.tmod l r ≤ 0 := by
  cases l with
  | ofNat m =>
    have hm : m = 0 := by
      by_contra hc
      have : (0 : Int) < Int.ofNat m := by
        rcases Nat.exists_eq_succ_of_ne_zero hc with ⟨k, hk⟩
        rw [hk]
        exact Int.ofNat_succ_pos k
      omega
    subst hm
    show Int.tmod 0 r ≤ 0
    rw [Int.zero_tmod]
  | negSucc m =>
    cases r with
    | ofNat n =>
      show -(Int.ofNat ((m + 1) % n)) ≤ 0
      exact neg_nonpos_of_nonneg (Int.ofNat_nonneg _)
    | negSucc n =>
      show -(Int.ofNat ((m + 1) % (n + 1))) ≤ 0
      exact neg_nonpos_of_nonneg (Int.ofNat_nonneg _)

/-- A truncating remainder is zero or has the sign of the dividend. -/
theorem tmod_sign (l r : Int) :
    Int.tmod l r = 0 ∨ (Int.tmod l r).sign = l.sign := by
  rcases Int.lt_trichotomy (Int.tmod l r) 0 with hm | hm | hm
  · right
    rw [Int.sign_eq_neg_one_of_neg hm]
    have hl : l < 0 := by
      by_contra hc
      push_neg at hc
      have := Int.tmod_nonneg r hc
      omega
    rw [Int.sign_eq_neg_one_of_neg hl]
  · left; exact hm
  · right
    rw [Int.sign_eq_one_of_pos hm]
    have hl : 0 < l := by
      by_contra hc
      push_neg at hc
      have := tmod_nonpos l r hc
      omega
    rw [Int.sign_eq_one_of_pos hl]

/-! ## Claim theorems -/

/-- C1, counterexample: calling the unknown function `foo` fails with
`Unimplemented`, not with `UndefinedFunction` as the claim states. -/
theorem call_unknown_counterexample :
    (Expr.Call "foo" [.Int 1]).eval Environment.default
        = (.error .Unimplemented, Environment.default) ∧
    EvalError.Unimplemented ≠ EvalError.UndefinedFunction := by
  refine ⟨?_, by decide⟩
  rw [Expr.eval.eq_def]
  simp

/-- C1 (amended): for every call expression `Call(name, args)` with
`name` different from `"pow"`, `eval` fails with the `Unimplemented`
error kind and leaves the environment unchanged; the evaluator never
consults the environment's function table (`Environment::call`, which
would yield `UndefinedFunction` for a name absent from the table, is
dead code). -/
theorem call_unknown_unimplemented (name : String) (args : List Expr)
    (env : Environment) (h : name ≠ "pow") :
    (Expr.Call name args).eval env = (.error .Unimplemented, env) ∧
    (env.functions name = none →
      env.call name args = .error .UndefinedFunction) := by
  constructor
  · rw [Expr.eval.eq_def]; simp [h]
  · intro hf; simp [Environment.call, hf]

/-- Witness for `call_unknown_unimplemented` at `name = "foo"`. -/
theorem call_unknown_unimplemented_witness :
    (Expr.Call "foo" [.Int 1]).eval Environment.default
        = (.error .Unimplemented, Environment.default) ∧
    (Environment.default.functions "foo" = none →
      Environment.default.call "foo" [.Int 1] = .error .UndefinedFunction) :=
  call_unknown_unimplemented "foo" [.Int 1] Environment.default (by decide)

/-- C2, counterexample: evaluating `(a = 1) + (1 / 0)` from the empty
environment returns an error, yet the environment after the call binds
`a` to `1` while it was unbound before: the assignment in the left
operand committed before the division by zero failed, so a failing
`evaluate` call does not always leave the environment exactly as it
was. -/
theorem eval_error_mutates_counterexample :
    (((Expr.Binary (.Binary (.Variable "a") .Assign (.Int 1)) .Add
        (.Binary (.Int 1) .Div (.Int 0))).eval Environment.default).1
          = .error .DevideByZero) ∧
    (((Expr.Binary (.Binary (.Variable "a") .Assign (.Int 1)) .Add
        (.Binary (.Int 1) .Div (.Int 0))).eval Environment.default).2.vars "a"
          = some 1) ∧
    Environment.default.vars "a" = none := by
  refine ⟨?_, ?_, rfl⟩ <;>
    simp [Expr.eval, Environment.set_variable, Environment.default]

/-- C2 (amended): environment changes survive a failing `evaluate` call
only when an assignment sub-expression fully committed before the
failure.  Evaluating an expression with no assignment never mutates the
environment (in particular a failing one leaves it exactly unchanged),
and a failing assignment whose right-hand side is assignment-free never
mutates the environment either, because an assignment binds its
variable only after its right-hand side has fully evaluated without
error. -/
theorem eval_error_env_unchanged :
    (∀ (e : Expr) (env : Environment),
      assignFree e = true → (e.eval env).2 = env) ∧
    (∀ (lhs rhs : Expr) (env : Environment) (k : EvalError),
      assignFree rhs = true →
      ((Expr.Binary lhs .Assign rhs).eval env).1 = .error k →
      ((Expr.Binary lhs .Assign rhs).eval env).2 = env) := by
  refine ⟨assignFree_env, ?_⟩
  intro lhs rhs env k hr hfail
  have henv := assignFree_env rhs env hr
  rcases hre : rhs.eval env with ⟨res, env₁⟩
  rw [hre] at henv
  simp only at henv
  subst henv
  cases res with
  | error e => simp [Expr.eval, hre]
  | ok r => cases lhs <;> simp_all [Expr.eval, hre]

/-- Witness for `eval_error_env_unchanged`: `1 / 0` is assignment-free
and fails without touching the environment, and the assignment
`a = 1 / 0` fails leaving the environment unchanged. -/
theorem eval_error_env_unchanged_witness :
    (assignFree (Expr.Binary (.Int 1) .Div (.Int 0)) = true ∧
      ((Expr.Binary (.Int 1) .Div (.Int 0)).eval Environment.default).2
        = Environment.default) ∧
    (((Expr.Binary (.Variable "a") .Assign
        (.Binary (.Int 1) .Div (.Int 0))).eval Environment.default).2
      = Environment.default) :=
  ⟨⟨by simp [assignFree],
      eval_error_env_unchanged.1 _ Environment.default (by simp [assignFree])⟩,
    eval_error_env_unchanged.2 (.Variable "a") _ Environment.default
      .DevideByZero (by simp [assignFree]) (by simp [Expr.eval])⟩

/-- C4: `"2 ** 3 ** 2"` parses as `2 ** (3 ** 2)` — the exponent
operator is right-associative — and that tree evaluates to `512` in
every environment (which it leaves unchanged). -/
theorem pow_right_assoc_512 :
    parse_from_str "2 ** 3 ** 2" =
      some (.ok (.Binary (.Int 2) .Pow (.Binary (.Int 3) .Pow (.Int 2)))) ∧
    ∀ env : Environment,
      (Expr.Binary (.Int 2) .Pow (.Binary (.Int 3) .Pow (.Int 2))).eval env
        = (.ok 512, env) := by
  constructor
  · have htok : tokens asciiXidStart asciiXidCont ("2 ** 3 ** 2".toList) =
        .ok [Token.NumLit "2", Token.AstAst, Token.NumLit "3", Token.AstAst,
             Token.NumLit "2"] := by
      simp [tokens, isAsciiWhitespace, asciiXidStart, String.toList, Except.map]
    simp only [parse_from_str, parseFromStrFuel, htok]
    rfl
  · intro env
    simp [Expr.eval, powResult]

/-- Witness for `pow_right_assoc_512` at the empty environment. -/
theorem pow_right_assoc_512_witness :
    (Expr.Binary (.Int 2) .Pow (.Binary (.Int 3) .Pow (.Int 2))).eval
        Environment.default = (.ok 512, Environment.default) :=
  pow_right_assoc_512.2 Environment.default

/-- C5: `"2 + 3 * 4"` parses with the multiplication nested under the
addition and evaluates to `14`, while `"(2 + 3) * 4"` parses with the
parenthesized sum as the left factor and evaluates to `20`, in every
environment: multiplication binds tighter than addition and parentheses
override precedence. -/
theorem precedence_mul_add_paren :
    (parse_from_str "2 + 3 * 4" =
        some (.ok (.Binary (.Int 2) .Add (.Binary (.Int 3) .Mul (.Int 4)))) ∧
      ∀ env : Environment,
        (Expr.Binary (.Int 2) .Add (.Binary (.Int 3) .Mul (.Int 4))).eval env
          = (.ok 14, env)) ∧
    (parse_from_str "(2 + 3) * 4" =
        some (.ok (.Binary (.Paren (.Binary (.Int 2) .Add (.Int 3))) .Mul
          (.Int 4))) ∧
      ∀ env : Environment,
        (Expr.Binary (.Paren (.Binary (.Int 2) .Add (.Int 3))) .Mul
            (.Int 4)).eval env = (.ok 20, env)) := by
  refine ⟨⟨?_, fun env => by simp [Expr.eval]⟩,
          ⟨?_, fun env => by simp [Expr.eval]⟩⟩
  · have htok : tokens asciiXidStart asciiXidCont ("2 + 3 * 4".toList) =
        .ok [Token.NumLit "2", Token.Plus, Token.NumLit "3", Token.Ast,
             Token.NumLit "4"] := by
      simp [tokens, isAsciiWhitespace, asciiXidStart, String.toList, Except.map]
    simp only [parse_from_str, parseFromStrFuel, htok]
    rfl
  · have htok : tokens asciiXidStart asciiXidCont ("(2 + 3) * 4".toList) =
        .ok [Token.LParen, Token.NumLit "2", Token.Plus, Token.NumLit "3",
             Token.RParen, Token.Ast, Token.NumLit "4"] := by
      simp [tokens, isAsciiWhitespace, asciiXidStart, String.toList, Except.map]
    simp only [parse_from_str, parseFromStrFuel, htok]
    rfl

/-- Witness for `precedence_mul_add_paren` at the empty environment. -/
theorem precedence_mul_add_paren_witness :
    (Expr.Binary (.Int 2) .Add (.Binary (.Int 3) .Mul (.Int 4))).eval
        Environment.default = (.ok 14, Environment.default) ∧
    (Expr.Binary (.Paren (.Binary (.Int 2) .Add (.Int 3))) .Mul
        (.Int 4)).eval Environment.default = (.ok 20, Environment.default) :=
  ⟨precedence_mul_add_paren.1.2 Environment.default,
   precedence_mul_add_paren.2.2 Environment.default⟩

/-- C6: a `Binary` expression with operator `Div` or `Rem` whose left
operand evaluates without error and whose right operand then evaluates
to zero fails with the divide-by-zero kind (spelled `DevideByZero` in
the source), for both operators: the zero guard precedes the
operation. -/
theorem div_rem_by_zero (op : BinaryOp) (lhs rhs : Expr)
    (env env₁ env₂ : Environment) (l : Int)
    (hop : op = .Div ∨ op = .Rem)
    (hl : lhs.eval env = (.ok l, env₁))
    (hr : rhs.eval env₁ = (.ok 0, env₂)) :
    (Expr.Binary lhs op rhs).eval env = (.error .DevideByZero, env₂) := by
  rcases hop with h | h <;> subst h <;> simp [Expr.eval, hl, hr]

/-- Witness for `div_rem_by_zero`: `1 / 0` and `1 % 0`. -/
theorem div_rem_by_zero_witness :
    (Expr.Binary (.Int 1) .Div (.Int 0)).eval Environment.default
        = (.error .DevideByZero, Environment.default) ∧
    (Expr.Binary (.Int 1) .Rem (.Int 0)).eval Environment.default
        = (.error .DevideByZero, Environment.default) :=
  ⟨div_rem_by_zero .Div (.Int 1) (.Int 0) Environment.default
      Environment.default Environment.default 1 (Or.inl rfl)
      (by simp [Expr.eval]) (by simp [Expr.eval]),
    div_rem_by_zero .Rem (.Int 1) (.Int 0) Environment.default
      Environment.default Environment.default 1 (Or.inr rfl)
      (by simp [Expr.eval]) (by simp [Expr.eval])⟩

/-- C7: whenever the exponent value is negative, both the `**` operator
and the built-in `pow` call fail with `NegativePower`; concretely, the
parses of `"2 ** -1"` and `"pow(2, -1)"` both evaluate to that error in
every environment. -/
theorem negative_power (lhs rhs : Expr) (env env₁ env₂ : Environment)
    (l r : Int)
    (hl : lhs.eval env = (.ok l, env₁))
    (hr : rhs.eval env₁ = (.ok r, env₂))
    (hneg : r < 0) :
    ((Expr.Binary lhs .Pow rhs).eval env = (.error .NegativePower, env₂) ∧
     (Expr.Call "pow" [lhs, rhs]).eval env = (.error .NegativePower, env₂)) ∧
    ((∀ env' : Environment, ∃ e : Expr,
        parse_from_str "2 ** -1" = some (.ok e) ∧
        e.eval env' = (.error .NegativePower, env')) ∧
     (∀ env' : Environment, ∃ e : Expr,
        parse_from_str "pow(2, -1)" = some (.ok e) ∧
        e.eval env' = (.error .NegativePower, env'))) := by
  have hpow : powResult l r = .error .NegativePower := by
    simp [powResult, hneg]
  refine ⟨⟨?_, ?_⟩, ?_, ?_⟩
  · simp [Expr.eval, hl, hr, hpow]
  · rw [Expr.eval.eq_def]; simp [hl, hr, hpow]
  · intro env'
    refine ⟨.Binary (.Int 2) .Pow (.Unary .Minus (.Int 1)), ?_, ?_⟩
    · have htok : tokens asciiXidStart asciiXidCont ("2 ** -1".toList) =
          .ok [Token.NumLit "2", Token.AstAst, Token.Minus,
               Token.NumLit "1"] := by
        simp [tokens, isAsciiWhitespace, asciiXidStart, String.toList,
          Except.map]
      simp only [parse_from_str, parseFromStrFuel, htok]
      rfl
    · simp [Expr.eval, powResult]
  · intro env'
    refine ⟨.Call "pow" [.Int 2, .Unary .Minus (.Int 1)], ?_, ?_⟩
    · have htok : tokens asciiXidStart asciiXidCont ("pow(2, -1)".toList) =
          .ok [Token.VarLit "pow", Token.LParen, Token.NumLit "2",
               Token.Comma, Token.Minus, Token.NumLit "1", Token.RParen] := by
        simp [tokens, isAsciiWhitespace, asciiXidStart, asciiXidCont,
          String.toList, Except.map]
      simp only [parse_from_str, parseFromStrFuel, htok]
      rfl
    · rw [Expr.eval.eq_def]; simp [Expr.eval, powResult]

/-- Witness for `negative_power`: base `2`, exponent `-1`. -/
theorem negative_power_witness :
    (Expr.Binary (.Int 2) .Pow (.Int (-1))).eval Environment.default
        = (.error .NegativePower, Environment.default) ∧
    (Expr.Call "pow" [.Int 2, .Int (-1)]).eval Environment.default
        = (.error .NegativePower, Environment.default) :=
  (negative_power (.Int 2) (.Int (-1)) Environment.default
      Environment.default Environment.default 2 (-1)
      (by simp [Expr.eval]) (by simp [Expr.eval]) (by decide)).1

/-- C10: for every pair of integers with a nonzero divisor, `Div`
yields a quotient `q` and `Rem` a remainder `rem` with
`q * r + rem = l`, `|rem| < |r|`, and `rem` zero or of the sign of the
dividend — together these three properties say exactly that the
quotient is truncated toward zero and the remainder carries the
dividend's sign. -/
theorem div_rem_truncation (l r : Int) (env : Environment) (h : r ≠ 0) :
    ∃ q rem : Int,
      (Expr.Binary (.Int l) .Div (.Int r)).eval env = (.ok q, env) ∧
      (Expr.Binary (.Int l) .Rem (.Int r)).eval env = (.ok rem, env) ∧
      q * r + rem = l ∧
      rem.natAbs < r.natAbs ∧
      (rem = 0 ∨ rem.sign = l.sign) := by
  refine ⟨l.tdiv r, l.tmod r, ?_, ?_, Int.tdiv_add_tmod' l r,
    natAbs_tmod_lt l r h, tmod_sign l r⟩
  · simp [Expr.eval, h]
  · simp [Expr.eval, h]

/-- Witness for `div_rem_truncation` at `l = -7`, `r = 2`. -/
theorem div_rem_truncation_witness :
    ∃ q rem : Int,
      (Expr.Binary (.Int (-7)) .Div (.Int 2)).eval Environment.default
        = (.ok q, Environment.default) ∧
      (Expr.Binary (.Int (-7)) .Rem (.Int 2)).eval Environment.default
        = (.ok rem, Environment.default) ∧
      q * 2 + rem = -7 ∧
      rem.natAbs < (2 : Int).natAbs ∧
      (rem = 0 ∨ rem.sign = (-7 : Int).sign) :=
  div_rem_truncation (-7) 2 Environment.default (by decide)

/-- The scanner's only error kind is `UnexpectedToken`; in particular
it never produces `ExpectedBinary`. -/
theorem tokens_no_expected_binary (xs xc : Char → Bool) (s : List Char) :
    tokens xs xc s ≠ .error .ExpectedBinary := by
  induction s using tokens.induct xs xc with
  | _ =>
    rw [tokens.eq_def]
    simp_all [Except.map]
    try (split <;> simp_all)

/-- When `peek_precedence` sees an operator, the following
`BinaryOp::parse` succeeds and consumes one token. -/
theorem binop_parse_of_peek (ts : List Token) (p : Precedence)
    (h : BinaryOp.peekPrecedence ts = some p) :
    ∃ op rest, BinaryOp.parse ts = (.ok op, rest) := by
  cases ts with
  | nil => simp [BinaryOp.peekPrecedence, BinaryOp.peek] at h
  | cons t rest =>
    cases hof : BinaryOp.ofToken t with
    | none => simp [BinaryOp.peekPrecedence, BinaryOp.peek, hof] at h
    | some op => exact ⟨op, rest, by simp [BinaryOp.parse, BinaryOp.peek, hof]⟩

/-- No parsing function lets `ExpectedBinary` escape: it only arises
from `BinaryOp::peek`, which `peek_precedence` swallows into `none`
(ending the climb) and which `BinaryOp::parse` only reaches after a
successful peek.  Proved simultaneously for all five mutually recursive
parsing functions by induction on the fuel. -/
theorem parser_no_expected_binary : ∀ fuel : Nat,
    (∀ ts e ts', parseExpr fuel ts = some (.error e, ts') →
      e ≠ .ExpectedBinary) ∧
    (∀ lhs base ts e ts', parseRexpr fuel lhs base ts = some (.error e, ts') →
      e ≠ .ExpectedBinary) ∧
    (∀ op rhs ts e ts', absorbRhs fuel op rhs ts = some (.error e, ts') →
      e ≠ .ExpectedBinary) ∧
    (∀ ts e ts', parseUnary fuel ts = some (.error e, ts') →
      e ≠ .ExpectedBinary) ∧
    (∀ acc ts e ts', argsLoop fuel acc ts = some (.error e, ts') →
      e ≠ .ExpectedBinary) := by
  intro fuel
  induction fuel with
  | zero => simp [parseExpr, parseRexpr, absorbRhs, parseUnary, argsLoop]
  | succ n ih =>
    obtain ⟨ihE, ihR, ihA, ihU, ihL⟩ := ih
    refine ⟨?_, ?_, ?_, ?_, ?_⟩
    · -- parseExpr
      intro ts e ts' h
      rw [parseExpr] at h
      rcases hu : parseUnary n ts with _ | ⟨r, ts₁⟩ <;> rw [hu] at h
      · simp at h
      · cases r with
        | error e' =>
          simp at h
          exact h.1 ▸ ihU ts e' ts₁ hu
        | ok lhs => exact ihR lhs .Any ts₁ e ts' h
    · -- parseRexpr
      intro lhs base ts e ts' h
      rw [parseRexpr] at h
      rcases hp : BinaryOp.peekPrecedence ts with _ | p <;> rw [hp] at h
      · simp at h
      · by_cases hblt : p.blt base
        · simp [hblt] at h
        · simp only [hblt, if_neg, Bool.false_eq_true, reduceIte] at h
          obtain ⟨op, rest, hparse⟩ := binop_parse_of_peek ts p hp
          rw [hparse] at h
          simp only [] at h
          rcases hu : parseUnary n rest with _ | ⟨r, ts₂⟩ <;> rw [hu] at h <;>
            try simp only [] at h
          · simp at h
          · cases r with
            | error e' =>
              simp at h
              exact h.1 ▸ ihU rest e' ts₂ hu
            | ok rhs0 =>
              simp only [] at h
              rcases ha : absorbRhs n op rhs0 ts₂ with _ | ⟨r2, ts₃⟩ <;>
                rw [ha] at h <;> try simp only [] at h
              · simp at h
              · cases r2 with
                | error e' =>
                  simp at h
                  exact h.1 ▸ ihA op rhs0 ts₂ e' ts₃ ha
                | ok rhs =>
                  simp only [] at h
                  exact ihR (.Binary lhs op rhs) base ts₃ e ts' h
    · -- absorbRhs
      intro op rhs ts e ts' h
      rw [absorbRhs] at h
      rcases hp : BinaryOp.peekPrecedence ts with _ | nxt <;> rw [hp] at h
      · simp at h
      · by_cases hc : (op.precedence.blt nxt || decide (nxt = op.precedence) && op.isRight) = true
        · simp only [hc, if_true] at h
          rcases hr : parseRexpr n rhs nxt ts with _ | ⟨r, ts₂⟩ <;> rw [hr] at h <;>
            try simp only [] at h
          · simp at h
          · cases r with
            | error e' =>
              simp at h
              exact h.1 ▸ ihR rhs nxt ts e' ts₂ hr
            | ok rhs' =>
              simp only [] at h
              exact ihA op rhs' ts₂ e ts' h
        · simp only [hc, if_false, Bool.false_eq_true, reduceIte] at h
          simp at h
    · -- parseUnary
      intro ts e ts' h
      rw [parseUnary.eq_def] at h
      simp only [] at h
      rcases ts with _ | ⟨t, rest⟩
      · simp at h
        obtain ⟨h1, h2⟩ := h
        subst h1
        decide
      · cases t
        case Plus =>
          simp only [] at h
          rcases hu : parseUnary n rest with _ | ⟨r, ts₁⟩ <;> rw [hu] at h <;>
            try simp only [] at h
          · simp at h
          · cases r with
            | error e' =>
              simp at h
              exact h.1 ▸ ihU rest e' ts₁ hu
            | ok e0 => simp at h
        case Minus =>
          simp only [] at h
          rcases hu : parseUnary n rest with _ | ⟨r, ts₁⟩ <;> rw [hu] at h <;>
            try simp only [] at h
          · simp at h
          · cases r with
            | error e' =>
              simp at h
              exact h.1 ▸ ihU rest e' ts₁ hu
            | ok e0 => simp at h
        case NumLit sl =>
          simp only [] at h
          rcases hb : parseBigIntStr sl with e' | nv <;> rw [hb] at h <;>
            try simp only [] at h
          · have he' : e' = .ParseBigIntError := by
              unfold parseBigIntStr at hb
              split at hb
              · simp at hb
              · simp at hb
                exact hb.symm
            simp at h
            obtain ⟨h1, h2⟩ := h
            subst h1
            rw [he']
            decide
          · simp at h
        case LParen =>
          simp only [] at h
          rcases he2 : parseExpr n rest with _ | ⟨r, ts₁⟩ <;> rw [he2] at h <;>
            try simp only [] at h
          · simp at h
          · cases r with
            | error e' =>
              simp at h
              exact h.1 ▸ ihE rest e' ts₁ he2
            | ok e0 =>
              simp only [] at h
              rcases ts₁ with _ | ⟨t2, ts₂⟩
              · simp at h
                obtain ⟨h1, h2⟩ := h
                subst h1
                decide
              · cases t2
                case RParen => simp at h
                all_goals
                  simp at h
                  obtain ⟨h1, h2⟩ := h
                  subst h1
                  decide
        case VarLit sl =>
          simp only [] at h
          rcases rest with _ | ⟨t2, ts₁⟩
          · simp at h
          · cases t2
            case LParen =>
              simp only [] at h
              rcases ha : argsLoop n [] ts₁ with _ | ⟨r, ts₂⟩ <;> rw [ha] at h <;>
                try simp only [] at h
              · simp at h
              · cases r with
                | error e' =>
                  simp at h
                  exact h.1 ▸ ihL [] ts₁ e' ts₂ ha
                | ok args => simp at h
            all_goals simp at h
        all_goals
          simp at h
          obtain ⟨h1, h2⟩ := h
          subst h1
          decide
    · -- argsLoop
      intro acc ts e ts' h
      rw [argsLoop] at h
      rcases he2 : parseExpr n ts with _ | ⟨r, ts₁⟩ <;> rw [he2] at h <;>
        try simp only [] at h
      · simp at h
      · cases r with
        | ok a =>
          rcases ts₁ with _ | ⟨t2, ts₂⟩
          · simp at h
            obtain ⟨h1, h2⟩ := h
            subst h1
            decide
          · cases t2
            case Comma => exact ihL (acc ++ [a]) ts₂ e ts' h
            case RParen => simp at h
            all_goals
              simp at h
              obtain ⟨h1, h2⟩ := h
              subst h1
              decide
        | error e' =>
          rcases ts₁ with _ | ⟨t2, ts₂⟩
          · simp at h
            obtain ⟨h1, h2⟩ := h
            subst h1
            decide
          · cases t2
            case RParen => simp at h
            all_goals
              simp at h
              obtain ⟨h1, h2⟩ := h
              subst h1
              decide

/-- C9: for every input string (any identifier classifier, any fuel),
the composed tokenize-then-parse-then-require-eof entry point never
returns the `ExpectedBinary` error kind: that kind is only an internal
lookahead signal ending the precedence-climbing loop. -/
theorem parse_never_expected_binary (xs xc : Char → Bool) (fuel : Nat)
    (s : String) :
    parseFromStrFuel xs xc fuel s ≠ some (.error .ExpectedBinary) ∧
    parse_from_str s ≠ some (.error .ExpectedBinary) := by
  have key : ∀ (xs2 xc2 : Char → Bool) (f2 : Nat) (s2 : String),
      parseFromStrFuel xs2 xc2 f2 s2 ≠ some (.error .ExpectedBinary) := by
    intro xs2 xc2 f2 s2
    unfold parseFromStrFuel
    rcases ht : tokens xs2 xc2 s2.toList with e | toks
    · simp only []
      intro hcon
      simp at hcon
      exact tokens_no_expected_binary xs2 xc2 s2.toList (hcon ▸ ht)
    · simp only []
      rcases hp : parseExpr f2 toks with _ | ⟨r, rest⟩
      · simp
      · cases r with
        | error e =>
          simp only []
          intro hcon
          simp at hcon
          exact (parser_no_expected_binary f2).1 toks e rest hp hcon
        | ok ex =>
          simp only []
          rcases he : eof rest with e2 | u
          · cases rest with
            | nil => simp [eof] at he
            | cons t r2 =>
              simp [eof] at he
              subst he
              simp
          · simp
  exact ⟨key xs xc fuel s, key asciiXidStart asciiXidCont _ s⟩

/-- Witness for `parse_never_expected_binary` at the input `"1 +"`
(which does fail — with `UnexpectedEndOfInput`, not `ExpectedBinary`).
-/
theorem parse_never_expected_binary_witness :
    parseFromStrFuel asciiXidStart asciiXidCont 20 "1 +"
        ≠ some (.error .ExpectedBinary) ∧
    parse_from_str "1 +" ≠ some (.error .ExpectedBinary) :=
  parse_never_expected_binary asciiXidStart asciiXidCont 20 "1 +"

/-- C3 (code bug): the claim — scanning any text of digit runs,
symbols, whitespace and XID identifiers returns `Ok`, never panics,
and turns each identifier into one `VarLit` with its full text — states
the evident intent of `token.rs` (the spec says so, the function
returns a `Result`, and it computes `slen` with `len_utf8` precisely to
handle multi-byte starts), but the code has a slip: it adds the
CHARACTER index from `s1.chars().position(..)` to the BYTE length of
the start character and passes the sum to `str::split_at`, a byte
operation.  Evaluating the byte-faithful scanner at the failing inputs:
on `"aé+"` the computed offset is 2, inside the two-byte `é`, so the
program panics (`tokensB` returns `none`) where the claim promises
`Ok`; the character-level scanner shows the intended result
`[VarLit "aé", Plus]`.  On `"aßb+"` the offset lands on a boundary
inside the identifier, so scanning "succeeds" but splits the single
identifier `aßb` into the two tokens `aß` and `b`.  Only when the
continuation run reaches the end of input (`"aé"`) does the
`unwrap_or(s1.len())` byte path make the arithmetic correct. -/
theorem scanner_byte_index_bug :
    tokensB xidStartDemo xidContDemo "aé+".toList = none ∧
    tokens xidStartDemo xidContDemo "aé+".toList =
      .ok [Token.VarLit "aé", Token.Plus] ∧
    tokensB xidStartDemo xidContDemo "aßb+".toList =
      some (.ok [Token.VarLit "aß", Token.VarLit "b", Token.Plus]) ∧
    tokensB xidStartDemo xidContDemo "aé".toList =
      some (.ok [Token.VarLit "aé"]) := by
  refine ⟨?_, ?_, ?_, ?_⟩ <;>
    simp [tokensB, tokens, splitAtByte, byteLen, isAsciiWhitespace,
      xidStartDemo, xidContDemo, String.toList, Except.map, Char.utf8Size]

/-- C8, counterexample: the entry point accepts `"f(1,)"` — whose token
list ends with a `Comma` directly followed by `RParen` — and parses it
as `Call("f", [1])`.  The reference grammar
`args := (expr (',' expr)*)?` derives no argument list in which a
comma is not followed by an expression, so the claim fails on this
input. -/
theorem trailing_comma_accepted :
    tokens asciiXidStart asciiXidCont ("f(1,)".toList) =
      .ok [Token.VarLit "f", Token.LParen, Token.NumLit "1", Token.Comma,
           Token.RParen] ∧
    parse_from_str "f(1,)" = some (.ok (.Call "f" [.Int 1])) := by
  have htok : tokens asciiXidStart asciiXidCont ("f(1,)".toList) =
      .ok [Token.VarLit "f", Token.LParen, Token.NumLit "1", Token.Comma,
           Token.RParen] := by
    simp [tokens, isAsciiWhitespace, asciiXidStart, asciiXidCont,
      String.toList, Except.map]
  refine ⟨htok, ?_⟩
  simp only [parse_from_str, parseFromStrFuel, htok]
  rfl

/-- The shapes of argument-list input that the call-argument loop of
`parse_unary` accepts, relating the tokens ahead of the loop to the
collected arguments and the tokens after the closing parenthesis:
 * `closeFail` — expression parsing fails and the cursor then sits
   exactly on `)` (covers the empty list, a trailing comma, and a
   trailing partial expression whose failure point is the `)`);
 * `closeExpr` — a full argument expression directly followed by `)`;
 * `comma` — a full argument expression followed by `,` and a further
   argument-list shape. -/
inductive ArgsDeriv : List Token → List Expr → List Token → Prop where
  | closeFail : ∀ (fuel : Nat) (ts : List Token) (e : ParseError)
      (rest : List Token),
      parseExpr fuel ts = some (.error e, Token.RParen :: rest) →
      ArgsDeriv ts [] rest
  | closeExpr : ∀ (fuel : Nat) (ts : List Token) (a : Expr)
      (rest : List Token),
      parseExpr fuel ts = some (.ok a, Token.RParen :: rest) →
      ArgsDeriv ts [a] rest
  | comma : ∀ (fuel : Nat) (ts : List Token) (a : Expr) (ts2 : List Token)
      (tl : List Expr) (rest : List Token),
      parseExpr fuel ts = some (.ok a, Token.Comma :: ts2) →
      ArgsDeriv ts2 tl rest →
      ArgsDeriv ts (a :: tl) rest

/-- C8 (amended): every successfully parsed call argument list conforms
to the grammar `args := (expr (',' expr)* ','?)?` extended so that
the final list entry may also be a token run on which expression
parsing fails exactly at the closing parenthesis: by `ArgsDeriv`, each
comma inside a call is followed by another argument expression, by the
closing parenthesis, or by such a failing run — not necessarily by an
argument expression as the reference grammar requires. -/
theorem argsLoop_sound : ∀ (fuel : Nat) (acc : List Expr) (ts : List Token)
    (args : List Expr) (rest : List Token),
    argsLoop fuel acc ts = some (.ok args, rest) →
    ∃ tl, args = acc ++ tl ∧ ArgsDeriv ts tl rest := by
  intro fuel
  induction fuel with
  | zero => intro acc ts args rest h; simp [argsLoop] at h
  | succ n ih =>
    intro acc ts args rest h
    rw [argsLoop] at h
    rcases he : parseExpr n ts with _ | ⟨r, ts₁⟩ <;> rw [he] at h <;>
      try simp only [] at h
    · simp at h
    · cases r with
      | ok a =>
        rcases ts₁ with _ | ⟨t2, ts₂⟩
        · simp at h
        · cases t2
          case Comma =>
            obtain ⟨tl, htl, hd⟩ := ih (acc ++ [a]) ts₂ args rest h
            exact ⟨a :: tl, by simp [htl], ArgsDeriv.comma n ts a ts₂ tl rest he hd⟩
          case RParen =>
            simp at h
            obtain ⟨h1, h2⟩ := h
            exact ⟨[a], by simp [h1], h2 ▸ ArgsDeriv.closeExpr n ts a ts₂ he⟩
          all_goals simp at h
      | error e' =>
        rcases ts₁ with _ | ⟨t2, ts₂⟩
        · simp at h
        · cases t2
          case RParen =>
            simp at h
            obtain ⟨h1, h2⟩ := h
            exact ⟨[], by simp [h1], h2 ▸ ArgsDeriv.closeFail n ts e' ts₂ he⟩
          all_goals simp at h

/-- Witness for `argsLoop_sound` on the argument tokens of `"f(1,)"`. -/
theorem argsLoop_sound_witness :
    ∃ tl, ([Expr.Int 1] : List Expr) = [] ++ tl ∧
      ArgsDeriv [Token.NumLit "1", Token.Comma, Token.RParen] tl [] :=
  argsLoop_sound 10 [] [Token.NumLit "1", Token.Comma, Token.RParen]
    [Expr.Int 1] [] (by rfl)

end Calculator
